import Mathlib

/-!
# Verification of the note selection and filtering engine
# of the obsidian-minimalist-homepage plugin (src/main.js)

This file gives a shallow embedding of the note selection / filtering /
aggregation logic of `src/main.js` and proves (or refutes) the frozen
claims about it.

Conventions:

* JavaScript strings are modelled by Lean `String`; the JS string methods
  used by the plugin (`startsWith`, `endsWith`, `includes`, `toLowerCase`,
  `substring(1)`) are modelled explicitly on the character sequence
  (`String.data`) of the string.
* Obsidian `TFile` objects are modelled by the `MDFile` structure which
  carries exactly the metadata the engine reads: `path`, `basename`,
  `parent.path`, `stat.mtime`, the metadata cache's frontmatter `tags`
  field and body-tag list, list items, and the result of
  `vault.cachedRead` (an `Option String`: `none` models a read failure).
* `Math.sin` is floating point; the embedding is parameterised by the
  function `sinFn : ℕ → ℚ` giving the (double precision) value computed
  for each integer seed, and the rest of the arithmetic is exact.
-/

namespace MinimalistHomepage

/-! ## JS string primitives -/

/-- JS `s.toLowerCase()` (ASCII case mapping on each UTF-16 unit). -/
def jsToLower (s : String) : String := String.mk (s.data.map Char.toLower)

/-- JS `s.startsWith(p)`. -/
def jsStartsWith (s p : String) : Bool := decide (p.data <+: s.data)

/-- JS `s.endsWith(p)`. -/
def jsEndsWith (s p : String) : Bool := decide (p.data <:+ s.data)

/-- JS `s.includes(c)` for a single-character needle. -/
def jsIncludesChar (s : String) (c : Char) : Bool := s.data.contains c

/-- JS `s.includes(sub)`. -/
def jsIncludesStr (s sub : String) : Bool := decide (sub.data <:+: s.data)

/-- JS `s.substring(1)`: drop the first UTF-16 unit. -/
def jsSubstring1 (s : String) : String := String.mk s.data.tail

/-- JS `s.trim()`: drop leading and trailing whitespace. -/
def jsTrim (s : String) : String :=
  String.mk
    (((s.data.dropWhile Char.isWhitespace).reverse.dropWhile
      Char.isWhitespace).reverse)

/-- JS array spread of a `Set` built from a list: keep the first occurrence
of each element, in insertion order. -/
def jsSetDedup (l : List String) : List String :=
  l.foldl (fun acc t => if t ∈ acc then acc else acc ++ [t]) []

/-! ## Data model -/

/-- The frontmatter `tags` field: a scalar or an array of scalars
(scalars are read through JS `String(x)`, so we model them as strings). -/
inductive FmVal where
  | str : String → FmVal
  | arr : List String → FmVal
  deriving DecidableEq

/-- One entry of `cache.listItems`: the physical line it starts on
(`item.position.start.line`) and the task marker `item.task`
(`none` for a plain list item, `some c` for a checkbox `[c]`). -/
structure ListItem where
  line : Nat
  task : Option Char
  deriving DecidableEq

/-- A markdown file together with the cached metadata the engine reads. -/
structure MDFile where
  path : String
  basename : String
  /-- `file.parent.path` (the vault root is `"/"`). -/
  parentPath : String := "/"
  /-- `file.stat.mtime`. -/
  mtime : Nat := 0
  /-- the frontmatter `tags` field, if any. -/
  fmTags : Option FmVal := none
  /-- `cache.tags`: body tags as they appear in the cache, leading `#` included. -/
  bodyTags : List String := []
  listItems : List ListItem := []
  /-- the result of `vault.cachedRead`; `none` models a rejected read. -/
  content : Option String := none
  deriving DecidableEq

/-! ## Deterministic daily selector (src/main.js lines 666–672) -/

/-- A wall-clock instant as the `moment()` library exposes it; only the
calendar components and a sub-day component are relevant here. -/
structure Moment where
  year : Nat
  month : Nat
  day : Nat
  /-- minutes since midnight; the formula must not depend on this. -/
  minuteOfDay : Nat := 0
  deriving DecidableEq

/-- `parseInt(moment().format("YYYYMMDD"))`: the integer formed by the
year followed by the zero-padded month and day. -/
def todaySeed (t : Moment) : Nat := t.year * 10000 + t.month * 100 + t.day

/-- `seededRandom = (seed) => { let x = Math.sin(seed) * 10000; return x - Math.floor(x); }`,
with the double-precision sine supplied as `sinFn`. -/
def seededRandom (sinFn : Nat → ℚ) (seed : Nat) : ℚ :=
  let x : ℚ := sinFn seed * 10000
  x - ⌊x⌋

/-- `Math.floor(x * candidateNotes.length)` where `x` is the value
returned by `seededRandom`.  No clamping is applied in the source. -/
def dailyRandomIndex (x : ℚ) (len : Nat) : Int := ⌊x * len⌋

/-- Modelled from the spec's words (NOT from the code, which contains no
clamp): the index "clamped into `[0, length-1]`" before indexing. -/
def dailyRandomIndexClamped (x : ℚ) (len : Nat) : Int :=
  min (max (dailyRandomIndex x len) 0) ((len : Int) - 1)

/-- Lines 666–672: pick `candidateNotes[randomIndex]` when the candidate
list is non-empty (`dailyNoteToRender` stays `null` otherwise). -/
def selectDaily (sinFn : Nat → ℚ) (candidates : List MDFile) (t : Moment) :
    Option MDFile :=
  if 0 < candidates.length then
    candidates[(dailyRandomIndex (seededRandom sinFn (todaySeed t)) candidates.length).toNat]?
  else none

/-! ## Exclusion prefix tests (vault stats section, lines 1080–1093) -/

/-- Line 1083 / 1091: membership below an excluded top-level folder —
the entry gets a `"/"` appended before the prefix test. -/
def inExcludedTopFolder (excl : List String) (path : String) : Bool :=
  excl.any (fun e => jsStartsWith (jsToLower path) (e ++ "/"))

/-- Line 1092: the word-count exclusion — the entry is used as a raw
prefix of the lower-cased path, with no `"/"` appended. -/
def inExcludedWordcountPath (excl : List String) (path : String) : Bool :=
  excl.any (fun e => jsStartsWith (jsToLower path) e)

/-! ## Query predicate evaluator

The To-Do-Notes section (lines 1277–1300) sniffs the query string:
leading `#` → tag query, containing `/` → folder query, otherwise
keyword-in-path query. -/

/-- Line 1284–1291: the tag set a note is matched against in the
To-Do-Notes section: body tags with their first character removed
(`t.tag.substring(1)`, NOT lower-cased here), then the frontmatter `tags`
field (string or array), each entry lower-cased (and NOT `#`-stripped).
A falsy frontmatter value (absent field or empty string) contributes
nothing. -/
def todoFileTags (f : MDFile) : List String :=
  let bodyT := f.bodyTags.map jsSubstring1
  match f.fmTags with
  | none => bodyT
  | some (.str s) => if s = "" then bodyT else bodyT ++ [jsToLower s]
  | some (.arr l) => bodyT ++ l.map jsToLower

/-- Line 1293: `[...new Set(fileTags)].includes(tagName.toLowerCase())`. -/
def todoTagMatches (f : MDFile) (tagName : String) : Bool :=
  (jsSetDedup (todoFileTags f)).contains (jsToLower tagName)

/-- Line 1162–1167, the same computation in the sidebar to-do-list
section: there the body tags are additionally lower-cased
(`t.tag.substring(1).toLowerCase()`); the frontmatter entries are
handled as in the To-Do-Notes section (lower-cased, not `#`-stripped). -/
def sidebarFileTags (f : MDFile) : List String :=
  let bodyT := f.bodyTags.map (fun t => jsToLower (jsSubstring1 t))
  match f.fmTags with
  | none => bodyT
  | some (.str s) => if s = "" then bodyT else bodyT ++ [jsToLower s]
  | some (.arr l) => bodyT ++ l.map jsToLower

/-- Line 1167: `[...new Set(fileTags)].includes(tagName)`; the query was
already trimmed and lower-cased at line 1149. -/
def sidebarTagMatches (f : MDFile) (tagName : String) : Bool :=
  (jsSetDedup (sidebarFileTags f)).contains tagName

/-- The spec's `QuerySpec` tagged value. -/
inductive QuerySpec where
  | tagQ : String → QuerySpec
  | folderQ : String → QuerySpec
  | keywordQ : String → QuerySpec
  | noneQ : QuerySpec
  deriving DecidableEq

def QuerySpec.isFolderKind : QuerySpec → Bool
  | .folderQ _ => true
  | _ => false

/-- The classification performed by the `if`-chain at lines 1278–1300
(the query arrives trimmed; the section shows a "not configured" message
for an empty query). -/
def parseQuery (query : String) : QuerySpec :=
  if query = "" then .noneQ
  else if jsStartsWith query "#" then .tagQ (jsSubstring1 query)
  else if jsIncludesChar query '/' then
    .folderQ (if jsEndsWith (jsToLower query) "/" then jsToLower query
              else jsToLower query ++ "/")
  else .keywordQ (jsToLower query)

/-- The per-branch filter predicates of lines 1280, 1297, 1299. -/
def matchesQuery (q : QuerySpec) (f : MDFile) : Bool :=
  match q with
  | .tagQ t => todoTagMatches f t
  | .folderQ p => jsStartsWith (jsToLower f.path) p
  | .keywordQ s => jsIncludesStr (jsToLower f.path) s
  | .noneQ => false

/-- Lines 1277–1300 as one function: the note list surviving the query
of the To-Do-Notes section (`filteredNotes`). -/
def todoFilteredNotes (files : List MDFile) (query : String) : List MDFile :=
  if jsStartsWith query "#" then
    files.filter (fun f => todoTagMatches f (jsSubstring1 query))
  else if jsIncludesChar query '/' then
    let folderPath := if jsEndsWith (jsToLower query) "/" then jsToLower query
                      else jsToLower query ++ "/"
    files.filter (fun f => jsStartsWith (jsToLower f.path) folderPath)
  else if query ≠ "" then
    files.filter (fun f => jsIncludesStr (jsToLower f.path) (jsToLower query))
  else []

/-- Modelled from the spec's words, for comparison with the code (claim
C1), NOT from the code: normalization lower-cases and strips a leading
`#`. -/
def specNormalizeTag (t : String) : String :=
  let l := jsToLower t
  if jsStartsWith l "#" then jsSubstring1 l else l

/-- Modelled from the spec's words, for comparison with the code (claim
C1), NOT from the code: a note matches a tag query iff the normalized
query tag occurs in the union of the body tags and the frontmatter
`tags` entries, every entry itself normalized (lower-cased, leading `#`
stripped) before the exact-equality comparison. -/
def specTagMatches (f : MDFile) (query : String) : Bool :=
  let entries := f.bodyTags ++ (match f.fmTags with
    | none => []
    | some (.str s) => [s]
    | some (.arr l) => l)
  (entries.map specNormalizeTag).contains (specNormalizeTag query)

/-! ## Task text extraction (`getOriginalTaskText`, lines 598–612) -/

/-- The character class `[ \w\/xX-]` inside the checkbox brackets
(JS `\w` is `[A-Za-z0-9_]`). -/
def isBoxChar (c : Char) : Bool :=
  c = ' ' || c.isAlphanum || c = '_' || c = '/' || c = 'x' || c = 'X' || c = '-'

/-- The effect of `line.replace(/^[\s\t]*[-*+]\s*(\[[ \w\/xX-]\]\s*)?/, '')`
on the character sequence of the line: when the line carries a leading
bullet (`-`, `*` or `+` after optional whitespace), the whitespace, the
bullet, the following whitespace and an optional three-character checkbox
group `[c]` (plus trailing whitespace) are removed; otherwise the regex
does not match and the line is returned unchanged. -/
def stripTaskMarker (l : List Char) : List Char :=
  match l.dropWhile (fun c => c.isWhitespace) with
  | b :: r =>
      if b = '-' || b = '*' || b = '+' then
        let r2 := r.dropWhile (fun c => c.isWhitespace)
        match r2 with
        | '[' :: c :: ']' :: r3 =>
            if isBoxChar c then r3.dropWhile (fun c => c.isWhitespace) else r2
        | _ => r2
      else l
  | [] => l

/-- Lines 598–612: read the file, split into lines, strip the task
marker of the requested line and trim; a read failure (`none` content)
produces the read-error placeholder naming the file, an out-of-range
line number the range placeholder. -/
def getOriginalTaskText (f : MDFile) (lineNumber : Nat) : String :=
  match f.content with
  | some content =>
      let lines := content.splitOn "\n"
      if h : lineNumber < lines.length then
        (String.mk (stripTaskMarker (lines.get ⟨lineNumber, h⟩).data)).trim
      else "[行号超出范围: " ++ toString (lineNumber + 1) ++ "]"
  | none => "[读取文件错误: " ++ f.basename ++ "]"

/-! ## Sidebar to-do task extraction (lines 1147–1208) -/

/-- Lines 1156–1175: the source filter of the sidebar to-do section.
`sourcesQuery` arrives trimmed and lower-cased; a query without `/` is
still treated as a folder when the vault has a folder of exactly that
path (`getAbstractFileByPath(...) instanceof TFolder`), which we model
by the list of all folder paths of the vault. -/
def sidebarRelevantFiles (files : List MDFile) (q : String)
    (vaultFolderPaths : List String) : List MDFile :=
  if q = "" then files
  else if jsStartsWith q "#" then
    files.filter (fun f => sidebarTagMatches f (jsSubstring1 q))
  else if jsIncludesChar q '/' || vaultFolderPaths.contains q then
    let folderPath := if jsEndsWith q "/" then q else q ++ "/"
    files.filter (fun f => jsStartsWith (jsToLower f.path) (jsToLower folderPath))
  else
    files.filter (fun f => jsIncludesStr (jsToLower f.path) q)

/-- Line 1187: `item.task && (item.task === ' ' || item.task === '/')`. -/
def isOpenTask (it : ListItem) : Bool :=
  match it.task with
  | some c => c == ' ' || c == '/'
  | none => false

/-- The record pushed at lines 1189–1195. -/
structure TaskEntry where
  text : String
  filePath : String
  fileBasename : String
  line : Nat
  status : Char
  mtime : Nat
  deriving DecidableEq

def mkTaskEntry (f : MDFile) (it : ListItem) : TaskEntry :=
  { text := getOriginalTaskText f it.line
    filePath := f.path
    fileBasename := f.basename
    line := it.line
    status := it.task.getD ' '
    mtime := f.mtime }

/-- Lines 1177–1199: collect the open / in-progress items of every
relevant file that is not below an excluded top folder. -/
def collectTasks (excl : List String) (files : List MDFile) : List TaskEntry :=
  (files.filter (fun f => !inExcludedTopFolder excl f.path)).flatMap
    (fun f => (f.listItems.filter isOpenTask).map (mkTaskEntry f))

/-- The order imposed by the comparator at lines 1201–1206: newer file
first, earlier line first within equal modification times ("a sorts no
later than b"). -/
def taskBefore (a b : TaskEntry) : Prop :=
  b.mtime < a.mtime ∨ (a.mtime = b.mtime ∧ a.line ≤ b.line)

instance : DecidableRel taskBefore := fun a b => by
  unfold taskBefore; infer_instance

instance : IsTotal TaskEntry taskBefore :=
  ⟨by intro a b; unfold taskBefore; omega⟩

instance : IsTrans TaskEntry taskBefore :=
  ⟨by intro a b c; unfold taskBefore; omega⟩

/-- Lines 1201–1208: the stable sort by the comparator, then
`slice(0, limit)`.  (`Array.prototype.sort` is stable; a stable sort by
a total preorder is insertion sort with the "sorts no later than"
relation.) -/
def extractSidebarTasks (files : List MDFile) (excl : List String)
    (q : String) (vaultFolderPaths : List String) (limit : Nat) :
    List TaskEntry :=
  (List.insertionSort taskBefore
    (collectTasks excl (sidebarRelevantFiles files q vaultFolderPaths))).take limit

/-! ## Tag aggregation (Top Tags section, lines 1454–1501) -/

/-- `replace(/^#/, '')`: strip at most one leading `#`. -/
def stripOneHash (s : String) : String :=
  if jsStartsWith s "#" then jsSubstring1 s else s

/-- `String(tag).trim().replace(/^#/, '').toLowerCase()` (lines 1478, 1480). -/
def cleanFmTag (t : String) : String := jsToLower (stripOneHash (jsTrim t))

/-- `tagObj.tag.replace(/^#/, '').toLowerCase()` (line 1487, no trim). -/
def cleanBodyTag (t : String) : String := jsToLower (stripOneHash t)

/-- JS `Set.add`: append if not yet present (insertion order is kept). -/
def addToSet (s : List String) (t : String) : List String :=
  if t ∈ s then s else s ++ [t]

/-- Lines 1472–1489: `fileUniqueTags`, the set of unique cleaned tags of
one file — frontmatter entries first (string or array; a falsy value
contributes nothing), then the body tags, in insertion order. -/
def fileUniqueTags (f : MDFile) : List String :=
  let s1 := match f.fmTags with
    | none => []
    | some (.str s) => if s = "" then [] else addToSet [] (cleanFmTag s)
    | some (.arr l) => l.foldl (fun acc t => addToSet acc (cleanFmTag t)) []
  f.bodyTags.foldl (fun acc t => addToSet acc (cleanBodyTag t)) s1

/-- JS `Map.set(k, (get(k) || 0) + 1)` (line 1494): update the first
binding in place or append a new one; a JS `Map` iterates its entries in
key-insertion order, so the list order below is first-seen order. -/
def bumpTag (m : List (String × Nat)) (t : String) : List (String × Nat) :=
  match m with
  | [] => [(t, 1)]
  | (k, v) :: rest => if k = t then (k, v + 1) :: rest else (k, v) :: bumpTag rest t

/-- Lines 1462–1497: one pass over all files; files below an excluded top
folder are skipped (line 1465), every non-empty unique tag of a file
bumps that tag's counter by one (lines 1492–1496). -/
def tagCountsMap (excl : List String) (files : List MDFile) :
    List (String × Nat) :=
  files.foldl (fun m f =>
    if inExcludedTopFolder excl f.path then m
    else (fileUniqueTags f).foldl
      (fun m' t => if t = "" then m' else bumpTag m' t) m) []

/-- The count a tag holds in the map (`0` if absent). -/
def getCount (m : List (String × Nat)) (t : String) : Nat :=
  (m.lookup t).getD 0

/-- The "sorts no later than" relation of the comparator
`([, countA], [, countB]) => countB - countA` at line 1500: count
descending.  `Array.prototype.sort` is stable, so entries with equal
counts keep their relative (map-iteration = first-seen) order; a stable
sort by a total preorder is insertion sort with this relation. -/
def countGE (a b : String × Nat) : Prop := b.2 ≤ a.2

instance : DecidableRel countGE := fun a b => by unfold countGE; infer_instance

instance : IsTotal (String × Nat) countGE := ⟨by intro a b; unfold countGE; omega⟩

instance : IsTrans (String × Nat) countGE := ⟨by intro a b c; unfold countGE; omega⟩

/-- Line 1499–1500: `Array.from(tagCounts.entries()).sort(...)`. -/
def sortedTagEntries (excl : List String) (files : List MDFile) :
    List (String × Nat) :=
  List.insertionSort countGE (tagCountsMap excl files)

/-- Line 1501: `.slice(0, limit)`. -/
def topTags (excl : List String) (files : List MDFile) (limit : Nat) :
    List (String × Nat) :=
  (sortedTagEntries excl files).take limit

/-! ## Folder grid (lines 764–913) -/

/-- An immediate child folder of a top-level folder
(`folder.children` filtered to `TFolder`). -/
structure SubFolder where
  path : String
  name : String
  deriving DecidableEq

/-- A top-level folder of the vault together with its child folders. -/
structure TopFolder where
  path : String
  name : String
  children : List SubFolder
  deriving DecidableEq

/-- A stable sort by a host-supplied boolean comparator (the source's
`localeCompare`-based `Array.prototype.sort` calls; the comparator is an
external collaborator, so it is a parameter here).  Only the fact that
the result is a permutation of the input matters for the claims. -/
def sortByBool {α : Type} (le : α → α → Bool) (l : List α) : List α :=
  @List.insertionSort α (fun a b => le a b = true)
    (fun a b => Bool.decEq (le a b) true) l

/-- Line 793: `notesInThisWholeCategory` — all markdown files below the
top-level folder. -/
def notesInCategory (files : List MDFile) (F : TopFolder) : List MDFile :=
  files.filter (fun f =>
    jsStartsWith f.path (F.path ++ "/") && jsEndsWith (jsToLower f.path) ".md")

/-- Lines 806–812: each child folder with its recursive note list,
keeping only the non-empty ones (before the display sort of line 813). -/
def subGroupsRaw (files : List MDFile) (F : TopFolder) :
    List (SubFolder × List MDFile) :=
  (F.children.map (fun s =>
    (s, (notesInCategory files F).filter
      (fun n => jsStartsWith n.path (s.path ++ "/"))))).filter
    (fun p => !p.2.isEmpty)

/-- Line 813: the subfolder cards sorted by name. -/
def subGroups (nameLE : String → String → Bool) (files : List MDFile)
    (F : TopFolder) : List (SubFolder × List MDFile) :=
  sortByBool (fun a b => nameLE a.1.name b.1.name) (subGroupsRaw files F)

/-- Lines 863–865: notes directly in the top-level folder, excluding a
note named like the folder itself (case-insensitively). -/
def directNotesRaw (files : List MDFile) (F : TopFolder) : List MDFile :=
  (notesInCategory files F).filter (fun n =>
    (n.parentPath == F.path) && (jsToLower n.basename != jsToLower F.name))

/-- The note lists the folder card displays: each subgroup's notes
sorted by name (lines 830–831), then the direct notes sorted by name
(lines 881–882); `nameLE` abstracts the locale comparator (the source
compares `TFile.name`, i.e. basename plus extension — all entries are
`.md`, so it is a comparator on basenames). -/
def folderCardLists (nameLE : String → String → Bool) (files : List MDFile)
    (F : TopFolder) : List (List MDFile) :=
  (subGroups nameLE files F).map
      (fun p => sortByBool (fun a b => nameLE a.basename b.basename) p.2) ++
    [sortByBool (fun a b => nameLE a.basename b.basename)
      (directNotesRaw files F)]

/-- All notes the folder card lists, subgroups first, then the direct
notes. -/
def allListed (nameLE : String → String → Bool) (files : List MDFile)
    (F : TopFolder) : List MDFile :=
  (folderCardLists nameLE files F).flatten

/-! ## Theorems -/

theorem seededRandom_eq_fract (sinFn : Nat → ℚ) (seed : Nat) :
    seededRandom sinFn seed = Int.fract (sinFn seed * 10000) := rfl

theorem seededRandom_nonneg (sinFn : Nat → ℚ) (seed : Nat) :
    0 ≤ seededRandom sinFn (seed) := by
  rw [seededRandom_eq_fract]
  exact Int.fract_nonneg _

theorem seededRandom_lt_one (sinFn : Nat → ℚ) (seed : Nat) :
    seededRandom sinFn (seed) < 1 := by
  rw [seededRandom_eq_fract]
  exact Int.fract_lt_one _

theorem dailyRandomIndex_nonneg {x : ℚ} (hx : 0 ≤ x) (len : Nat) :
    0 ≤ dailyRandomIndex x len := by
  unfold dailyRandomIndex
  exact Int.floor_nonneg.mpr (by positivity)

theorem dailyRandomIndex_lt {x : ℚ} (hx : x < 1) {len : Nat}
    (hlen : 0 < len) : dailyRandomIndex x len < len := by
  unfold dailyRandomIndex
  have hlt : x * (len : ℚ) < (len : ℚ) := by
    have hl : (0 : ℚ) < len := by exact_mod_cast hlen
    nlinarith
  exact Int.floor_lt.mpr (by exact_mod_cast hlt)

/-- C3, counterexample.  The claim says the computed index
`floor(fractional(sin(seed)*10000) * length)` is clamped into
`[0, length-1]` before indexing.  The source applies no clamp: at a
`seededRandom` value of exactly `1` — which the claimed clamp would have
to guard against, and which the IEEE-754 evaluation of `x - Math.floor(x)`
does produce for tiny negative `x` (e.g. `x = -1e-30` gives `1.0`
exactly) — the unclamped index on a 3-element candidate list is `3`,
outside `[0, 2]`, and indexing returns nothing (JS `undefined`). -/
theorem C3_counterexample :
    dailyRandomIndex 1 3 = 3 ∧
    ¬ dailyRandomIndex 1 3 ≤ (3 : Int) - 1 ∧
    dailyRandomIndexClamped 1 3 = 2 ∧
    ([{ path := "a.md", basename := "a" }, { path := "b.md", basename := "b" },
      { path := "c.md", basename := "c" }] :
      List MDFile)[(dailyRandomIndex 1 3).toNat]? = none := by
  have h : dailyRandomIndex 1 3 = 3 := by
    unfold dailyRandomIndex
    rw [one_mul]
    exact Int.floor_natCast 3
  refine ⟨h, by rw [h]; decide, ?_, by rw [h]; rfl⟩
  unfold dailyRandomIndexClamped
  rw [h]
  decide

/-- C3 (amended): no clamp is applied to the daily index; the computed
`floor(x * length)` is used directly.  In exact arithmetic the
`seededRandom` result `x = sin(seed)*10000 - floor(sin(seed)*10000)`
always lies in `[0, 1)`, and for such `x` the index lies in
`[0, length-1]`, so the selection stays in bounds; but an `x` of exactly
`1` (reachable only through floating-point rounding) yields index
`length`, which nothing clamps. -/
theorem C3_amended_unclamped_index (x : ℚ) (len : Nat) (sinFn : Nat → ℚ)
    (seed : Nat) (h0 : 0 ≤ x) (h1 : x < 1) (hlen : 0 < len) :
    (0 ≤ dailyRandomIndex x len ∧ dailyRandomIndex x len < len) ∧
    (0 ≤ seededRandom sinFn seed ∧ seededRandom sinFn seed < 1) ∧
    dailyRandomIndex 1 len = len := by
  refine ⟨⟨dailyRandomIndex_nonneg h0 len, dailyRandomIndex_lt h1 hlen⟩,
    ⟨seededRandom_nonneg sinFn seed, seededRandom_lt_one sinFn seed⟩, ?_⟩
  unfold dailyRandomIndex
  rw [one_mul]
  exact Int.floor_natCast len

theorem C3_amended_unclamped_index_witness :
    ((0 ≤ dailyRandomIndex (1/2) 3 ∧ dailyRandomIndex (1/2) 3 < 3) ∧
     (0 ≤ seededRandom (fun _ => 37/100) 20240315 ∧
      seededRandom (fun _ => 37/100) 20240315 < 1) ∧
     dailyRandomIndex 1 3 = 3) :=
  C3_amended_unclamped_index (1/2) 3 (fun _ => 37/100) 20240315
    (by norm_num) (by norm_num) (by norm_num)

/-- C4: the daily selection depends only on the calendar day (the seed is
computed from year, month and day alone), so repeated invocations within
one day agree; an empty candidate list yields `none`; and a non-empty
candidate list always yields a note (in exact arithmetic the index is in
range). -/
theorem C4_selectDaily_deterministic (sinFn : Nat → ℚ) (cands : List MDFile)
    (t₁ t₂ : Moment) (hy : t₁.year = t₂.year) (hm : t₁.month = t₂.month)
    (hd : t₁.day = t₂.day) :
    selectDaily sinFn cands t₁ = selectDaily sinFn cands t₂ ∧
    selectDaily sinFn [] t₁ = none ∧
    (cands ≠ [] → (selectDaily sinFn cands t₁).isSome = true) := by
  have hseed : todaySeed t₁ = todaySeed t₂ := by
    unfold todaySeed; rw [hy, hm, hd]
  refine ⟨by unfold selectDaily; rw [hseed], by simp [selectDaily], ?_⟩
  intro hne
  have hlen : 0 < cands.length := List.length_pos.mpr hne
  have h0 := seededRandom_nonneg sinFn (todaySeed t₁)
  have h1 := seededRandom_lt_one sinFn (todaySeed t₁)
  have hi0 := dailyRandomIndex_nonneg h0 cands.length
  have hi1 := dailyRandomIndex_lt h1 hlen
  have hlt : (dailyRandomIndex (seededRandom sinFn (todaySeed t₁))
      cands.length).toNat < cands.length := by omega
  unfold selectDaily
  rw [if_pos hlen, List.getElem?_eq_getElem hlt]
  rfl

theorem C4_selectDaily_deterministic_witness :
    (selectDaily (fun _ => 37/100) [{ path := "a.md", basename := "a" }]
        ⟨2024, 3, 15, 600⟩ =
      selectDaily (fun _ => 37/100) [{ path := "a.md", basename := "a" }]
        ⟨2024, 3, 15, 1260⟩) ∧
    selectDaily (fun _ => 37/100) [] ⟨2024, 3, 15, 600⟩ = none ∧
    (selectDaily (fun _ => 37/100) [{ path := "a.md", basename := "a" }]
        ⟨2024, 3, 15, 600⟩).isSome = true := by
  have h := C4_selectDaily_deterministic (fun _ => 37/100)
    [{ path := "a.md", basename := "a" }] ⟨2024, 3, 15, 600⟩
    ⟨2024, 3, 15, 1260⟩ rfl rfl rfl
  exact ⟨h.1, h.2.1, h.2.2 (List.cons_ne_nil _ _)⟩

/-! ### Query evaluator lemmas -/

theorem mem_jsSetDedup (l : List String) (x : String) :
    x ∈ jsSetDedup l ↔ x ∈ l := by
  have aux : ∀ (l acc : List String),
      x ∈ l.foldl (fun acc t => if t ∈ acc then acc else acc ++ [t]) acc ↔
        x ∈ acc ∨ x ∈ l := by
    intro l
    induction l with
    | nil => intro acc; simp
    | cons h t ih =>
      intro acc
      simp only [List.foldl_cons]
      by_cases hh : h ∈ acc
      · rw [if_pos hh, ih]
        simp only [List.mem_cons]
        constructor
        · rintro (hx | hx)
          · exact Or.inl hx
          · exact Or.inr (Or.inr hx)
        · rintro (hx | rfl | hx)
          · exact Or.inl hx
          · exact Or.inl hh
          · exact Or.inr hx
      · rw [if_neg hh, ih]
        simp only [List.mem_append, List.mem_singleton, List.mem_cons]
        tauto
  unfold jsSetDedup
  rw [aux]
  simp

/-- C1, counterexample.  The claim says a tag query matches iff the
normalized tag is in the union of body and frontmatter tags with *every*
entry lower-cased and `#`-stripped.  The code never strips a leading `#`
from a frontmatter entry: a note whose frontmatter is `tags: ["#todo"]`
is matched by the spec's predicate for query `"#todo"` but by neither
code path (To-Do-Notes section, lines 1278–1294, nor the sidebar task
section, lines 1157–1168), and the note list filtered by that query is
empty. -/
theorem C1_counterexample :
    specTagMatches
      { path := "a.md", basename := "a", fmTags := some (.arr ["#todo"]) }
      "#todo" = true ∧
    matchesQuery (parseQuery "#todo")
      { path := "a.md", basename := "a", fmTags := some (.arr ["#todo"]) } = false ∧
    sidebarTagMatches
      { path := "a.md", basename := "a", fmTags := some (.arr ["#todo"]) }
      "todo" = false ∧
    todoFilteredNotes
      [{ path := "a.md", basename := "a", fmTags := some (.arr ["#todo"]) }]
      "#todo" = [] := by
  refine ⟨by decide, by decide, by decide, by decide⟩

/-- C1 (amended): a query starting with `#` does parse as a tag query
with the tag being the rest of the query; but a note matches iff the
lower-cased tag is in the union of the body tags with their first
character removed (NOT lower-cased in the To-Do-Notes section;
lower-cased in the sidebar task section) and the frontmatter `tags`
entries lower-cased with NO leading `#` stripped — so a frontmatter
entry written with a leading `#` never matches. -/
theorem C1_amended_tag_match (q : String) (f : MDFile)
    (h : jsStartsWith q "#" = true) :
    parseQuery q = QuerySpec.tagQ (jsSubstring1 q) ∧
    (matchesQuery (parseQuery q) f = true ↔
      jsToLower (jsSubstring1 q) ∈ todoFileTags f) ∧
    (sidebarTagMatches f (jsToLower (jsSubstring1 q)) = true ↔
      jsToLower (jsSubstring1 q) ∈ sidebarFileTags f) := by
  have hq0 : ¬ q = "" := by
    intro hq; subst hq; exact absurd h (by decide)
  have hp : parseQuery q = QuerySpec.tagQ (jsSubstring1 q) := by
    unfold parseQuery; rw [if_neg hq0, if_pos h]
  refine ⟨hp, ?_, ?_⟩
  · rw [hp]
    show todoTagMatches f (jsSubstring1 q) = true ↔ _
    unfold todoTagMatches
    rw [List.elem_iff, mem_jsSetDedup]
  · unfold sidebarTagMatches
    rw [List.elem_iff, mem_jsSetDedup]

theorem C1_amended_tag_match_witness :
    (parseQuery "#Todo" = QuerySpec.tagQ "Todo") ∧
    (matchesQuery (parseQuery "#Todo")
        { path := "n.md", basename := "n", bodyTags := ["#Todo"] } = true ↔
      jsToLower (jsSubstring1 "#Todo") ∈
        todoFileTags { path := "n.md", basename := "n", bodyTags := ["#Todo"] }) ∧
    (sidebarTagMatches { path := "n.md", basename := "n", bodyTags := ["#Todo"] }
        (jsToLower (jsSubstring1 "#Todo")) = true ↔
      jsToLower (jsSubstring1 "#Todo") ∈
        sidebarFileTags { path := "n.md", basename := "n", bodyTags := ["#Todo"] }) :=
  C1_amended_tag_match "#Todo"
    { path := "n.md", basename := "n", bodyTags := ["#Todo"] } (by decide)

/-- C8, counterexample.  The claim quantifies over *every* query string
containing `/`; but tag detection has priority: `"#a/b"` contains `/`
and is parsed as a tag query, not a folder query. -/
theorem C8_counterexample :
    jsIncludesChar "#a/b" '/' = true ∧
    parseQuery "#a/b" = QuerySpec.tagQ "a/b" ∧
    QuerySpec.isFolderKind (parseQuery "#a/b") = false := by
  refine ⟨by decide, by decide, by decide⟩

/-- C8 (amended): for every query string containing `/` that does not
start with `#`, the query is parsed as a folder query whose prefix is
the lower-cased raw string with a trailing `/` appended if not already
present, and a note matches iff its lower-cased path starts with that
prefix; in particular query `"Projects/"` matches path
`"Projects/Alpha/plan.md"` and does not match `"ProjectsOld/x.md"`. -/
theorem C8_amended_folder_query (q : String) (f : MDFile)
    (hns : jsStartsWith q "#" = false) (hsl : jsIncludesChar q '/' = true) :
    parseQuery q = QuerySpec.folderQ
      (if jsEndsWith (jsToLower q) "/" then jsToLower q
       else jsToLower q ++ "/") ∧
    (matchesQuery (parseQuery q) f = true ↔
      (if jsEndsWith (jsToLower q) "/" then jsToLower q
       else jsToLower q ++ "/").data <+: (jsToLower f.path).data) ∧
    matchesQuery (parseQuery "Projects/")
      { path := "Projects/Alpha/plan.md", basename := "plan" } = true ∧
    matchesQuery (parseQuery "Projects/")
      { path := "ProjectsOld/x.md", basename := "x" } = false := by
  have hq0 : ¬ q = "" := by
    intro hq; subst hq; exact absurd hsl (by decide)
  have hp : parseQuery q = QuerySpec.folderQ
      (if jsEndsWith (jsToLower q) "/" then jsToLower q
       else jsToLower q ++ "/") := by
    unfold parseQuery
    rw [if_neg hq0, if_neg (by simp [hns]), if_pos hsl]
  refine ⟨hp, ?_, by decide, by decide⟩
  rw [hp]
  show jsStartsWith (jsToLower f.path) _ = true ↔ _
  unfold jsStartsWith
  rw [decide_eq_true_iff]

theorem C8_amended_folder_query_witness :
    (parseQuery "Projects/" = QuerySpec.folderQ
      (if jsEndsWith (jsToLower "Projects/") "/" then jsToLower "Projects/"
       else jsToLower "Projects/" ++ "/")) ∧
    (matchesQuery (parseQuery "Projects/")
        { path := "Projects/Alpha/plan.md", basename := "plan" } = true ↔
      (if jsEndsWith (jsToLower "Projects/") "/" then jsToLower "Projects/"
       else jsToLower "Projects/" ++ "/").data <+:
        (jsToLower (MDFile.path
          { path := "Projects/Alpha/plan.md", basename := "plan" })).data) ∧
    matchesQuery (parseQuery "Projects/")
      { path := "Projects/Alpha/plan.md", basename := "plan" } = true ∧
    matchesQuery (parseQuery "Projects/")
      { path := "ProjectsOld/x.md", basename := "x" } = false :=
  C8_amended_folder_query "Projects/"
    { path := "Projects/Alpha/plan.md", basename := "plan" }
    (by decide) (by decide)

/-- C9: when the read of a task's source file fails, the task-text
function returns the placeholder string naming the file (the file's
basename occurs in the returned text) instead of raising, and the task
collection over a list of files splits around any file, so one file's
read failure never affects the tasks extracted from other files. -/
theorem C9_read_failure_placeholder (f : MDFile) (lineNumber : Nat)
    (l₁ l₂ : List MDFile) (excl : List String) (hfail : f.content = none) :
    getOriginalTaskText f lineNumber = "[读取文件错误: " ++ f.basename ++ "]" ∧
    (∃ pre post, getOriginalTaskText f lineNumber = pre ++ f.basename ++ post) ∧
    collectTasks excl (l₁ ++ f :: l₂) =
      collectTasks excl l₁ ++ collectTasks excl [f] ++ collectTasks excl l₂ := by
  have h1 : getOriginalTaskText f lineNumber =
      "[读取文件错误: " ++ f.basename ++ "]" := by
    unfold getOriginalTaskText
    rw [hfail]
  have happ : ∀ a b : List MDFile,
      collectTasks excl (a ++ b) = collectTasks excl a ++ collectTasks excl b := by
    intro a b
    unfold collectTasks
    rw [List.filter_append, List.flatMap_append]
  refine ⟨h1, ⟨"[读取文件错误: ", "]", h1⟩, ?_⟩
  have : l₁ ++ f :: l₂ = (l₁ ++ [f]) ++ l₂ := by simp
  rw [this, happ, happ]

theorem C9_read_failure_placeholder_witness :
    getOriginalTaskText
        { path := "bad.md", basename := "bad", content := none } 0 =
      "[读取文件错误: " ++
        MDFile.basename { path := "bad.md", basename := "bad", content := none } ++
        "]" ∧
    (∃ pre post,
      getOriginalTaskText
          { path := "bad.md", basename := "bad", content := none } 0 =
        pre ++
          MDFile.basename { path := "bad.md", basename := "bad", content := none } ++
          post) ∧
    collectTasks []
        ([{ path := "g.md", basename := "g", content := some "- [ ] ok",
            listItems := [{ line := 0, task := some ' ' }] }] ++
          { path := "bad.md", basename := "bad", content := none } :: []) =
      collectTasks []
          [{ path := "g.md", basename := "g", content := some "- [ ] ok",
             listItems := [{ line := 0, task := some ' ' }] }] ++
        collectTasks [] [{ path := "bad.md", basename := "bad", content := none }] ++
        collectTasks [] [] :=
  C9_read_failure_placeholder
    { path := "bad.md", basename := "bad", content := none } 0
    [{ path := "g.md", basename := "g", content := some "- [ ] ok",
       listItems := [{ line := 0, task := some ' ' }] }] [] [] rfl

/-- C10: the word-count exclusion list is tested as a raw lower-cased
prefix of the note path (no `/` appended), so any path below a top
folder excluded by the stats exclusion (which appends `/`) is also
word-count-excluded by the same entry, but not conversely: entry
`"temp"` word-count-excludes `"Templates/x.md"` while the top-folder
test with `/` appended does not exclude it. -/
theorem C10_wordcount_raw_prefix (e p : String)
    (h : inExcludedTopFolder [e] p = true) :
    inExcludedWordcountPath [e] p = true ∧
    inExcludedWordcountPath ["temp"] "Templates/x.md" = true ∧
    inExcludedTopFolder ["temp"] "Templates/x.md" = false := by
  refine ⟨?_, by decide, by decide⟩
  simp only [inExcludedTopFolder, List.any_cons, List.any_nil, Bool.or_false,
    jsStartsWith, decide_eq_true_eq] at h
  simp only [inExcludedWordcountPath, List.any_cons, List.any_nil, Bool.or_false,
    jsStartsWith, decide_eq_true_eq]
  have hpre : e.data <+: (e ++ "/").data := by
    rw [String.data_append]
    exact List.prefix_append _ _
  exact hpre.trans h

theorem C10_wordcount_raw_prefix_witness :
    inExcludedWordcountPath ["temp"] "temp/x.md" = true ∧
    inExcludedWordcountPath ["temp"] "Templates/x.md" = true ∧
    inExcludedTopFolder ["temp"] "Templates/x.md" = false :=
  C10_wordcount_raw_prefix "temp" "temp/x.md" (by decide)

/-! ### Tag aggregation lemmas -/

theorem lookup_bumpTag_self (m : List (String × Nat)) (t : String) :
    (bumpTag m t).lookup t = some (getCount m t + 1) := by
  induction m with
  | nil => simp [bumpTag, getCount, List.lookup_cons_self, List.lookup_nil]
  | cons p rest ih =>
    obtain ⟨k, v⟩ := p
    by_cases hk : k = t
    · subst hk
      simp [bumpTag, getCount, List.lookup_cons_self]
    · have hbeq : (t == k) = false :=
        beq_eq_false_iff_ne.mpr (fun he => hk he.symm)
      simp only [bumpTag, if_neg hk, List.lookup_cons, hbeq]
      rw [ih]
      have hgc : getCount ((k, v) :: rest) t = getCount rest t := by
        unfold getCount
        simp [List.lookup_cons, hbeq]
      rw [hgc]

theorem lookup_bumpTag_other (m : List (String × Nat)) (t t' : String)
    (h : t' ≠ t) : (bumpTag m t).lookup t' = m.lookup t' := by
  have hbeq : (t' == t) = false := beq_eq_false_iff_ne.mpr h
  induction m with
  | nil => simp [bumpTag, List.lookup_cons, List.lookup_nil, hbeq]
  | cons p rest ih =>
    obtain ⟨k, v⟩ := p
    by_cases hk : k = t
    · subst hk
      simp [bumpTag, List.lookup_cons, hbeq]
    · simp only [bumpTag, if_neg hk, List.lookup_cons]
      cases hkk : (t' == k) <;> simp [hkk, ih]

theorem getCount_bumpTag_self (m : List (String × Nat)) (t : String) :
    getCount (bumpTag m t) t = getCount m t + 1 := by
  unfold getCount
  rw [lookup_bumpTag_self]
  rfl

theorem getCount_bumpTag_other (m : List (String × Nat)) (t t' : String)
    (h : t' ≠ t) : getCount (bumpTag m t) t' = getCount m t' := by
  unfold getCount
  rw [lookup_bumpTag_other m t t' h]

theorem addToSet_nodup {s : List String} (t : String) (hs : s.Nodup) :
    (addToSet s t).Nodup := by
  unfold addToSet
  split
  · exact hs
  · rename_i ht
    simp [List.nodup_append, hs, ht]

theorem foldl_addToSet_nodup (g : String → String) (l : List String) :
    ∀ acc : List String, acc.Nodup →
      (l.foldl (fun a t => addToSet a (g t)) acc).Nodup := by
  induction l with
  | nil => intro acc h; simpa using h
  | cons x rest ih =>
    intro acc h
    simp only [List.foldl_cons]
    exact ih _ (addToSet_nodup _ h)

theorem fileUniqueTags_nodup (f : MDFile) : (fileUniqueTags f).Nodup := by
  unfold fileUniqueTags
  apply foldl_addToSet_nodup
  cases hfm : f.fmTags with
  | none => simp
  | some v =>
    cases v with
    | str s =>
      by_cases hs : s = ""
      · simp [hs]
      · simp only [if_neg hs]
        exact addToSet_nodup _ List.nodup_nil
    | arr l => exact foldl_addToSet_nodup _ l [] List.nodup_nil

theorem getCount_foldBump (t : String) (ht : t ≠ "") (l : List String)
    (hl : l.Nodup) :
    ∀ m : List (String × Nat),
      getCount (l.foldl (fun m' x => if x = "" then m' else bumpTag m' x) m) t =
        getCount m t + (if t ∈ l then 1 else 0) := by
  induction l with
  | nil => intro m; simp
  | cons x rest ih =>
    intro m
    have hx : x ∉ rest := (List.nodup_cons.mp hl).1
    have hrest : rest.Nodup := (List.nodup_cons.mp hl).2
    simp only [List.foldl_cons]
    by_cases hxe : x = ""
    · rw [if_pos hxe, ih hrest m]
      have hiff : (t ∈ x :: rest) ↔ t ∈ rest := by
        rw [List.mem_cons]
        constructor
        · rintro (rfl | hm)
          · exact absurd hxe ht
          · exact hm
        · exact Or.inr
      simp only [hiff]
    · rw [if_neg hxe]
      by_cases htx : t = x
      · subst htx
        rw [ih hrest (bumpTag m t), getCount_bumpTag_self]
        simp [hx]
      · have hiff : (t ∈ x :: rest) ↔ t ∈ rest := by
          rw [List.mem_cons]
          exact ⟨fun h' => h'.resolve_left htx, Or.inr⟩
        rw [ih hrest (bumpTag m x), getCount_bumpTag_other m x t htx]
        simp only [hiff]

theorem getCount_tagCountsMap_aux (excl : List String) (t : String)
    (ht : t ≠ "") (files : List MDFile) :
    ∀ m : List (String × Nat),
      getCount (files.foldl (fun m f =>
        if inExcludedTopFolder excl f.path then m
        else (fileUniqueTags f).foldl
          (fun m' t => if t = "" then m' else bumpTag m' t) m) m) t =
      getCount m t +
        files.countP (fun f => !inExcludedTopFolder excl f.path &&
          decide (t ∈ fileUniqueTags f)) := by
  induction files with
  | nil => intro m; simp
  | cons f rest ih =>
    intro m
    simp only [List.foldl_cons, List.countP_cons]
    by_cases hex : inExcludedTopFolder excl f.path
    · rw [if_pos hex, ih]
      simp [hex]
    · rw [if_neg hex, ih,
        getCount_foldBump t ht (fileUniqueTags f) (fileUniqueTags_nodup f) m]
      by_cases hmem : t ∈ fileUniqueTags f
      · simp [hmem, hex]
        omega
      · simp [hmem, hex]

/-- C5: for every note not below an excluded top folder, the note's tags
are deduplicated within the note before counting (body and frontmatter
merged into one set), and each non-empty tag's global counter equals the
number of such notes containing it — one increment per note.  In
particular a note containing tag `x` twice (once in the body, once in
frontmatter) has the unique tag set `["x"]` and contributes exactly 1 to
the count of `"x"`. -/
theorem C5_one_count_per_note (excl : List String) (files : List MDFile)
    (t : String) (ht : t ≠ "") :
    getCount (tagCountsMap excl files) t =
      files.countP (fun f => !inExcludedTopFolder excl f.path &&
        decide (t ∈ fileUniqueTags f)) ∧
    fileUniqueTags
      { path := "n.md", basename := "n",
        bodyTags := ["#x"], fmTags := some (.str "x") } = ["x"] ∧
    getCount (tagCountsMap []
      [{ path := "n.md", basename := "n",
         bodyTags := ["#x"], fmTags := some (.str "x") }]) "x" = 1 := by
  refine ⟨?_, by decide, by decide⟩
  unfold tagCountsMap
  rw [getCount_tagCountsMap_aux excl t ht files []]
  simp [getCount]

theorem C5_one_count_per_note_witness :
    getCount (tagCountsMap ["temp"]
        [{ path := "n.md", basename := "n",
           bodyTags := ["#x"], fmTags := some (.str "x") },
         { path := "temp/t.md", basename := "t", bodyTags := ["#x"] }]) "x" =
      List.countP (fun f => !inExcludedTopFolder ["temp"] f.path &&
        decide ("x" ∈ fileUniqueTags f))
        [{ path := "n.md", basename := "n",
           bodyTags := ["#x"], fmTags := some (.str "x") },
         { path := "temp/t.md", basename := "t", bodyTags := ["#x"] }] ∧
    fileUniqueTags
      { path := "n.md", basename := "n",
        bodyTags := ["#x"], fmTags := some (.str "x") } = ["x"] ∧
    getCount (tagCountsMap []
      [{ path := "n.md", basename := "n",
         bodyTags := ["#x"], fmTags := some (.str "x") }]) "x" = 1 :=
  C5_one_count_per_note ["temp"]
    [{ path := "n.md", basename := "n",
       bodyTags := ["#x"], fmTags := some (.str "x") },
     { path := "temp/t.md", basename := "t", bodyTags := ["#x"] }]
    "x" (by decide)

theorem filter_orderedInsert_count (a : String × Nat)
    (l : List (String × Nat)) (c : Nat) :
    (List.orderedInsert countGE a l).filter (fun e => e.2 == c) =
      if a.2 = c then a :: l.filter (fun e => e.2 == c)
      else l.filter (fun e => e.2 == c) := by
  induction l with
  | nil =>
    simp only [List.orderedInsert]
    by_cases hc : a.2 = c
    · simp [List.filter_cons, hc]
    · simp [List.filter_cons, hc]
  | cons b t ih =>
    by_cases hab : countGE a b
    · rw [List.orderedInsert, if_pos hab]
      by_cases hc : a.2 = c
      · simp [List.filter_cons, hc]
      · simp [List.filter_cons, hc]
    · rw [List.orderedInsert, if_neg hab]
      have hbgt : a.2 < b.2 := by
        unfold countGE at hab
        omega
      by_cases hc : a.2 = c
      · have hbne : ¬ b.2 = c := by omega
        simp only [List.filter_cons]
        rw [ih]
        simp [hc, hbne]
      · simp only [List.filter_cons]
        rw [ih]
        simp [hc]

theorem filter_insertionSort_count (l : List (String × Nat)) (c : Nat) :
    (List.insertionSort countGE l).filter (fun e => e.2 == c) =
      l.filter (fun e => e.2 == c) := by
  induction l with
  | nil => rfl
  | cons a t ih =>
    rw [List.insertionSort, filter_orderedInsert_count]
    by_cases hc : a.2 = c
    · simp [List.filter_cons, hc, ih]
    · simp [List.filter_cons, hc, ih]

/-- C7: the tag-count sequence produced by the Top-Tags section is
sorted by count descending, and for every count value the subsequence of
entries holding that count is exactly the corresponding subsequence of
the aggregation map — whose entries are in first-seen order (a new tag
is appended at the end of the map, an existing tag is updated in place)
— so ties preserve first-seen order; the truncated display list is
sorted as well. -/
theorem C7_count_descending_first_seen_ties (excl : List String)
    (files : List MDFile) (limit : Nat) :
    List.Sorted countGE (sortedTagEntries excl files) ∧
    (∀ c, (sortedTagEntries excl files).filter (fun e => e.2 == c) =
      (tagCountsMap excl files).filter (fun e => e.2 == c)) ∧
    List.Sorted countGE (topTags excl files limit) := by
  refine ⟨List.sorted_insertionSort countGE (tagCountsMap excl files),
    fun c => filter_insertionSort_count (tagCountsMap excl files) c, ?_⟩
  exact List.Pairwise.sublist (List.take_sublist limit _)
    (List.sorted_insertionSort countGE (tagCountsMap excl files))

/-! ### Task extraction lemmas -/

theorem status_of_isOpenTask {it : ListItem} (h : isOpenTask it = true) :
    it.task.getD ' ' = ' ' ∨ it.task.getD ' ' = '/' := by
  unfold isOpenTask at h
  cases hition : it.task with
  | none => rw [hition] at h; exact absurd h (by simp)
  | some c =>
    rw [hition] at h
    simp only [Bool.or_eq_true, beq_iff_eq] at h
    rcases h with h | h <;> simp [hition, h]

/-- C6: task extraction keeps exactly the list items whose marker is
`' '` (open) or `'/'` (in-progress) — every extracted task carries one
of those two markers, so a done item (`'x'`) is never included, and
every open / in-progress item of every retained file is collected — the
result is sorted by owning file's modification time descending then line
ascending, and truncated to the configured limit. -/
theorem C6_open_tasks_sorted_truncated (files : List MDFile)
    (excl : List String) (q : String) (vfs : List String) (limit : Nat) :
    (∀ t ∈ extractSidebarTasks files excl q vfs limit,
      t.status = ' ' ∨ t.status = '/') ∧
    (∀ f ∈ sidebarRelevantFiles files q vfs,
      (!inExcludedTopFolder excl f.path) = true →
      ∀ it ∈ f.listItems, isOpenTask it = true →
        mkTaskEntry f it ∈
          collectTasks excl (sidebarRelevantFiles files q vfs)) ∧
    (∀ t ∈ collectTasks excl (sidebarRelevantFiles files q vfs),
      ∃ f ∈ sidebarRelevantFiles files q vfs,
        (!inExcludedTopFolder excl f.path) = true ∧
        ∃ it ∈ f.listItems, isOpenTask it = true ∧ t = mkTaskEntry f it) ∧
    List.Sorted taskBefore (extractSidebarTasks files excl q vfs limit) ∧
    (extractSidebarTasks files excl q vfs limit).length =
      min limit (collectTasks excl (sidebarRelevantFiles files q vfs)).length := by
  refine ⟨?_, ?_, ?_, ?_, ?_⟩
  · intro t ht
    have h1 : t ∈ List.insertionSort taskBefore
        (collectTasks excl (sidebarRelevantFiles files q vfs)) :=
      List.mem_of_mem_take ht
    have h2 : t ∈ collectTasks excl (sidebarRelevantFiles files q vfs) :=
      (List.perm_insertionSort taskBefore _).mem_iff.mp h1
    unfold collectTasks at h2
    obtain ⟨f, hf, hmap⟩ := List.mem_flatMap.mp h2
    obtain ⟨it, hit, rfl⟩ := List.mem_map.mp hmap
    have hopen : isOpenTask it = true := (List.mem_filter.mp hit).2
    show (mkTaskEntry f it).status = ' ' ∨ (mkTaskEntry f it).status = '/'
    unfold mkTaskEntry
    exact status_of_isOpenTask hopen
  · intro f hf hkeep it hit hopen
    unfold collectTasks
    refine List.mem_flatMap.mpr ⟨f, List.mem_filter.mpr ⟨hf, hkeep⟩, ?_⟩
    exact List.mem_map_of_mem _ (List.mem_filter.mpr ⟨hit, hopen⟩)
  · intro t ht
    unfold collectTasks at ht
    obtain ⟨f, hf, hmap⟩ := List.mem_flatMap.mp ht
    obtain ⟨it, hit, rfl⟩ := List.mem_map.mp hmap
    exact ⟨f, (List.mem_filter.mp hf).1, (List.mem_filter.mp hf).2,
      it, (List.mem_filter.mp hit).1, (List.mem_filter.mp hit).2, rfl⟩
  · exact List.Pairwise.sublist (List.take_sublist limit _)
      (List.sorted_insertionSort taskBefore _)
  · unfold extractSidebarTasks
    rw [List.length_take, List.length_insertionSort]

/-! ### Folder grid lemmas -/

theorem sortByBool_perm {α : Type} (le : α → α → Bool) (l : List α) :
    (sortByBool le l).Perm l :=
  List.perm_insertionSort _ l

theorem append_left_prefix_iff (l l₁ l₂ : List Char) :
    (l ++ l₁ <+: l ++ l₂) ↔ (l₁ <+: l₂) := by
  induction l with
  | nil => simp
  | cons x xs ih => simp [List.cons_append, List.cons_prefix_cons, ih]

/-- Two `/`-free segments immediately followed by `/` at the head of the
same string are equal. -/
theorem slash_seg_eq : ∀ (a b r : List Char), ('/' : Char) ∉ a →
    ('/' : Char) ∉ b → a ++ ['/'] <+: r → b ++ ['/'] <+: r → a = b := by
  intro a
  induction a with
  | nil =>
    intro b r _ hb h1 h2
    cases b with
    | nil => rfl
    | cons d bs =>
      cases r with
      | nil => simp at h1
      | cons x r' =>
        have h1' : ('/' : Char) = x ∧ ([] : List Char) <+: r' := by
          simpa [List.cons_prefix_cons] using h1
        have h2' : d = x ∧ bs ++ ['/'] <+: r' := by
          simpa [List.cons_append, List.cons_prefix_cons] using h2
        exact absurd (List.mem_cons.mpr (Or.inl (h2'.1.trans h1'.1.symm).symm)) hb
  | cons x as ih =>
    intro b r ha hb h1 h2
    cases r with
    | nil => simp at h1
    | cons y r' =>
      have h1' : x = y ∧ as ++ ['/'] <+: r' := by
        simpa [List.cons_append, List.cons_prefix_cons] using h1
      cases b with
      | nil =>
        have h2' : ('/' : Char) = y ∧ ([] : List Char) <+: r' := by
          simpa [List.cons_prefix_cons] using h2
        exact absurd (List.mem_cons.mpr (Or.inl (h1'.1.trans h2'.1.symm).symm)) ha
      | cons d bs =>
        have h2' : d = y ∧ bs ++ ['/'] <+: r' := by
          simpa [List.cons_append, List.cons_prefix_cons] using h2
        have hrec : as = bs :=
          ih bs r' (fun hm => ha (List.mem_cons_of_mem _ hm))
            (fun hm => hb (List.mem_cons_of_mem _ hm)) h1'.2 h2'.2
        rw [h1'.1, ← h2'.1, hrec]

/-- Counting notes with a fixed path: when all paths are distinct, the
count of notes satisfying `path = n.path ∧ pr` is `1` or `0` according
to `pr n`. -/
theorem countP_pathEq : ∀ (files : List MDFile),
    (files.map (fun f => f.path)).Nodup →
    ∀ n ∈ files, ∀ pr : MDFile → Bool,
      files.countP (fun m => (m.path == n.path) && pr m) =
        if pr n then 1 else 0 := by
  intro files
  induction files with
  | nil => intro _ n hn; cases hn
  | cons f rest ih =>
    intro hnd n hn pr
    rw [List.map_cons, List.nodup_cons] at hnd
    rw [List.countP_cons]
    by_cases hfp : f.path = n.path
    · have hnf : n = f := by
        rcases List.mem_cons.mp hn with rfl | hmem
        · rfl
        · have hnp : n.path ∉ List.map (fun f => f.path) rest := by
            rw [← hfp]; exact hnd.1
          exact absurd (List.mem_map_of_mem (fun f => f.path) hmem) hnp
      subst hnf
      have hrest0 : rest.countP (fun m => (m.path == n.path) && pr m) = 0 := by
        rw [List.countP_eq_zero]
        intro m hm
        simp only [Bool.and_eq_true, beq_iff_eq, not_and]
        intro hmp _
        exact hnd.1 (by
          rw [← hmp]
          exact List.mem_map_of_mem (fun f => f.path) hm)
      rw [hrest0]
      simp
    · have hnmem : n ∈ rest := by
        rcases List.mem_cons.mp hn with rfl | hmem
        · exact absurd rfl hfp
        · exact hmem
      have hhead : ((f.path == n.path) && pr f) = false := by
        simp [hfp]
      rw [ih hnd.2 n hnmem pr, hhead]
      simp

/-- Dropping the empty groups does not change the total count. -/
theorem sum_countP_nonempty (p : MDFile → Bool) :
    ∀ L : List (SubFolder × List MDFile),
      ((L.filter (fun q => !q.2.isEmpty)).map
        (fun q => q.2.countP p)).sum =
      (L.map (fun q => q.2.countP p)).sum := by
  intro L
  induction L with
  | nil => rfl
  | cons a t ih =>
    rw [List.filter_cons]
    by_cases ha : (!a.2.isEmpty) = true
    · rw [if_pos ha]
      simp [ih]
    · rw [if_neg ha]
      have ha2 : a.2 = [] := by
        simpa [List.isEmpty_iff] using ha
      simp [ih, ha2]

theorem sum_map_ite_one {α : Type} (v : α → Nat) (c₀ : α) :
    ∀ l : List α, c₀ ∈ l → l.Nodup → v c₀ = 1 →
      (∀ c ∈ l, c ≠ c₀ → v c = 0) → (l.map v).sum = 1 := by
  intro l
  induction l with
  | nil => intro hmem; cases hmem
  | cons a t ih =>
    intro hmem hnd hv hother
    rw [List.map_cons, List.sum_cons]
    rcases List.mem_cons.mp hmem with rfl | hmem'
    · have ht0 : (t.map v).sum = 0 := by
        apply List.sum_eq_zero
        intro x hx
        obtain ⟨c, hc, rfl⟩ := List.mem_map.mp hx
        have hcne : c ≠ c₀ := fun hceq =>
          (List.nodup_cons.mp hnd).1 (hceq ▸ hc)
        exact hother c (List.mem_cons_of_mem _ hc) hcne
      rw [hv, ht0]
    · have ha0 : v a = 0 := by
        apply hother a (List.mem_cons_self _ _)
        intro haeq
        exact (List.nodup_cons.mp hnd).1 (haeq ▸ hmem')
      rw [ha0, ih hmem' (List.nodup_cons.mp hnd).2 hv
        (fun c hc hne => hother c (List.mem_cons_of_mem _ hc) hne)]

/-- C2 (amended): under a retained top-level folder with well-formed
host metadata (distinct file paths; each child folder's path is
`folder.path ++ "/" ++ name` with a `/`-free name and distinct names;
each note's path is `parent ++ "/" ++ basename ++ ".md"` with a `/`-free
basename; every note not directly in the folder lies below some child
folder), every note appears in exactly one of the folder card's
subgroup note lists or its directNotes list — EXCEPT a note directly in
the folder whose basename (case-insensitively) equals the folder's
name, which appears in none of them (it is dropped entirely). -/
theorem C2_amended_partition (nameLE : String → String → Bool)
    (files : List MDFile) (F : TopFolder)
    (hnd : (files.map (fun f => f.path)).Nodup)
    (hcpath : ∀ c ∈ F.children, c.path = F.path ++ "/" ++ c.name)
    (hcname : ∀ c ∈ F.children, ('/' : Char) ∉ c.name.data)
    (hcnd : (F.children.map (fun c => c.name)).Nodup)
    (hfile : ∀ m ∈ files, jsStartsWith m.path (F.path ++ "/") = true →
      m.path = m.parentPath ++ "/" ++ m.basename ++ ".md" ∧
      ('/' : Char) ∉ m.basename.data)
    (hcover : ∀ m ∈ files, jsStartsWith m.path (F.path ++ "/") = true →
      m.parentPath ≠ F.path →
      ∃ c ∈ F.children, jsStartsWith m.path (c.path ++ "/") = true)
    (n : MDFile) (hn : n ∈ notesInCategory files F) :
    (allListed nameLE files F).countP (fun m => m.path == n.path) =
      if n.parentPath = F.path ∧ jsToLower n.basename = jsToLower F.name
      then 0 else 1 := by
  have hslash : ("/" : String).data = ['/'] := rfl
  have hmd : (".md" : String).data = ['.', 'm', 'd'] := rfl
  -- unpack membership in the category
  have hn' : n ∈ files ∧ (jsStartsWith n.path (F.path ++ "/") &&
      jsEndsWith (jsToLower n.path) ".md") = true := by
    unfold notesInCategory at hn
    exact List.mem_filter.mp hn
  have hstart : jsStartsWith n.path (F.path ++ "/") = true := by
    have := hn'.2
    simp only [Bool.and_eq_true] at this
    exact this.1
  have hcatn : (jsStartsWith n.path (F.path ++ "/") &&
      jsEndsWith (jsToLower n.path) ".md") = true := hn'.2
  have hpo := hfile n hn'.1 hstart
  -- the remainder of the path after `F.path ++ "/"`
  obtain ⟨r, hr⟩ : ∃ r, (F.path.data ++ ['/']) ++ r = n.path.data := by
    have hpre0 : (F.path ++ "/").data <+: n.path.data := by
      have h := hstart
      unfold jsStartsWith at h
      exact of_decide_eq_true h
    obtain ⟨r, hr0⟩ := hpre0
    refine ⟨r, ?_⟩
    rw [← hr0, String.data_append, hslash]
  -- the prefix test against a child folder, on character lists
  have hsubiff : ∀ c ∈ F.children,
      (jsStartsWith n.path (c.path ++ "/") = true ↔
        c.name.data ++ ['/'] <+: r) := by
    intro c hc
    unfold jsStartsWith
    rw [decide_eq_true_iff]
    have hcp : (c.path ++ "/").data =
        (F.path.data ++ ['/']) ++ (c.name.data ++ ['/']) := by
      rw [hcpath c hc]
      simp [String.data_append, hslash]
    rw [hcp, ← hr]
    exact append_left_prefix_iff _ _ _
  -- per-child count of `n` in the child's recursive note list
  have hchildcount : ∀ c : SubFolder,
      ((notesInCategory files F).filter
        (fun m => jsStartsWith m.path (c.path ++ "/"))).countP
          (fun m => m.path == n.path) =
        if jsStartsWith n.path (c.path ++ "/") then 1 else 0 := by
    intro c
    unfold notesInCategory
    rw [List.countP_filter, List.countP_filter]
    rw [List.countP_congr (q := fun m => (m.path == n.path) &&
      (jsStartsWith m.path (c.path ++ "/") &&
        (jsStartsWith m.path (F.path ++ "/") &&
          jsEndsWith (jsToLower m.path) ".md")))
      (fun x _ => by simp [Bool.and_assoc])]
    rw [countP_pathEq files hnd n hn'.1 _]
    rw [hcatn]
    simp
  -- count of `n` among the direct notes
  have hdirectcount : (directNotesRaw files F).countP
      (fun m => m.path == n.path) =
      if ((n.parentPath == F.path) &&
        (jsToLower n.basename != jsToLower F.name)) then 1 else 0 := by
    unfold directNotesRaw notesInCategory
    rw [List.countP_filter, List.countP_filter]
    rw [List.countP_congr (q := fun m => (m.path == n.path) &&
      (((m.parentPath == F.path) &&
        (jsToLower m.basename != jsToLower F.name)) &&
        (jsStartsWith m.path (F.path ++ "/") &&
          jsEndsWith (jsToLower m.path) ".md")))
      (fun x _ => by simp [Bool.and_assoc])]
    rw [countP_pathEq files hnd n hn'.1 _]
    rw [hcatn]
    simp
  -- split the displayed lists into the per-child sum plus direct notes
  have hsplit : (allListed nameLE files F).countP (fun m => m.path == n.path) =
      (F.children.map (fun c =>
        if jsStartsWith n.path (c.path ++ "/") then 1 else 0)).sum +
      (if ((n.parentPath == F.path) &&
        (jsToLower n.basename != jsToLower F.name)) then 1 else 0) := by
    unfold allListed folderCardLists subGroups
    rw [List.flatten_append, List.countP_append]
    congr 1
    · have hperm := (((sortByBool_perm
          (fun a b : SubFolder × List MDFile => nameLE a.1.name b.1.name)
          (subGroupsRaw files F)).map
          (fun q => sortByBool (fun a b => nameLE a.basename b.basename)
            q.2)).flatten)
      rw [List.Perm.countP_eq _ hperm, List.countP_flatten, List.map_map]
      have hpt : ∀ q ∈ subGroupsRaw files F,
          (List.countP (fun m => m.path == n.path) ∘
            (fun q => sortByBool
              (fun a b => nameLE a.basename b.basename) q.2)) q =
          q.2.countP (fun m => m.path == n.path) := by
        intro q _
        exact List.Perm.countP_eq _ (sortByBool_perm _ _)
      rw [List.map_congr_left hpt]
      unfold subGroupsRaw
      rw [sum_countP_nonempty, List.map_map]
      apply congrArg List.sum
      apply List.map_congr_left
      intro c _
      exact hchildcount c
    · rw [show ∀ l : List MDFile, ([l] : List (List MDFile)).flatten = l
        from fun l => by simp]
      rw [List.Perm.countP_eq _ (sortByBool_perm _ _)]
      exact hdirectcount
  by_cases hpar : n.parentPath = F.path
  · -- a direct note: it is below no child folder
    have hnotunder : ∀ c ∈ F.children,
        jsStartsWith n.path (c.path ++ "/") = false := by
      intro c hc
      rcases Bool.eq_false_or_eq_true (jsStartsWith n.path (c.path ++ "/"))
        with h | h
      · exfalso
        have hpre : c.name.data ++ ['/'] <+: r := (hsubiff c hc).mp h
        -- but `r = n.basename.data ++ ['.', 'm', 'd']` contains no `/`
        have hrdata : r = n.basename.data ++ ['.', 'm', 'd'] := by
          have hnp : n.path.data =
              (F.path.data ++ ['/']) ++ (n.basename.data ++ ['.', 'm', 'd']) := by
            rw [hpo.1, hpar]
            simp [String.data_append, hslash, hmd]
          rw [hnp] at hr
          exact List.append_cancel_left hr
        obtain ⟨tl, htl⟩ := hpre
        have hmem : ('/' : Char) ∈ n.basename.data ++ ['.', 'm', 'd'] := by
          rw [hrdata] at htl
          rw [← htl]
          exact List.mem_append_left _
            (List.mem_append_right _ (List.mem_singleton.mpr rfl))
        rcases List.mem_append.mp hmem with hm | hm
        · exact hpo.2 hm
        · simp at hm
      · exact h
    have hsum0 : (F.children.map (fun c =>
        if jsStartsWith n.path (c.path ++ "/") then 1 else 0)).sum = 0 := by
      apply List.sum_eq_zero
      intro x hx
      obtain ⟨c, hc, rfl⟩ := List.mem_map.mp hx
      rw [hnotunder c hc]
      simp
    by_cases hbase : jsToLower n.basename = jsToLower F.name
    · rw [if_pos ⟨hpar, hbase⟩, hsplit, hsum0]
      have hd0 : ((n.parentPath == F.path) &&
          (jsToLower n.basename != jsToLower F.name)) = false := by
        simp [hpar, hbase]
      rw [hd0]
      simp
    · rw [if_neg (fun hcontra => hbase hcontra.2), hsplit, hsum0]
      have hd1 : ((n.parentPath == F.path) &&
          (jsToLower n.basename != jsToLower F.name)) = true := by
        simp [hpar, hbase]
      rw [hd1]
      simp
  · -- a nested note: it is below exactly one child folder
    obtain ⟨c₀, hc₀, hc₀start⟩ := hcover n hn'.1 hstart hpar
    have huniq : ∀ c ∈ F.children,
        jsStartsWith n.path (c.path ++ "/") = true → c = c₀ := by
      intro c hc hcs
      have h1 : c.name.data ++ ['/'] <+: r := (hsubiff c hc).mp hcs
      have h2 : c₀.name.data ++ ['/'] <+: r := (hsubiff c₀ hc₀).mp hc₀start
      have hname : c.name = c₀.name :=
        String.ext (slash_seg_eq c.name.data c₀.name.data r
          (hcname c hc) (hcname c₀ hc₀) h1 h2)
      have hpath : c.path = c₀.path := by
        rw [hcpath c hc, hcpath c₀ hc₀, hname]
      cases c
      cases c₀
      simp_all
    have hsum1 : (F.children.map (fun c =>
        if jsStartsWith n.path (c.path ++ "/") then 1 else 0)).sum = 1 := by
      apply sum_map_ite_one _ c₀ F.children hc₀
        (List.Nodup.of_map (fun c => c.name) hcnd)
      · rw [hc₀start]
        simp
      · intro c hc hne
        rcases Bool.eq_false_or_eq_true (jsStartsWith n.path (c.path ++ "/"))
          with h | h
        · exact absurd (huniq c hc h) hne
        · rw [h]
          simp
    rw [if_neg (fun hcontra => hpar hcontra.1), hsplit, hsum1]
    have hd0 : ((n.parentPath == F.path) &&
        (jsToLower n.basename != jsToLower F.name)) = false := by
      simp [hpar]
    rw [hd0]
    simp

/-- C2, counterexample.  The claim says no note under a retained
top-level folder is lost, "including a note directly in the folder whose
basename (case-insensitively) equals the folder's name".  But exactly
that note is excluded from directNotes (lines 863–865) and lies under no
subfolder: in a folder `Poems` containing only `Poems/Poems.md`, the
note is in the folder's recursive note set yet appears in zero of the
card's note lists. -/
theorem C2_counterexample :
    ({ path := "Poems/Poems.md", basename := "Poems",
       parentPath := "Poems" } : MDFile) ∈
      notesInCategory
        [{ path := "Poems/Poems.md", basename := "Poems",
           parentPath := "Poems" }]
        { path := "Poems", name := "Poems", children := [] } ∧
    (allListed (fun _ _ => true)
        [{ path := "Poems/Poems.md", basename := "Poems",
           parentPath := "Poems" }]
        { path := "Poems", name := "Poems", children := [] }).countP
      (fun m => m.path == "Poems/Poems.md") = 0 := by
  refine ⟨by decide, by decide⟩

theorem C2_amended_partition_witness :
    (allListed (fun _ _ => true)
        [{ path := "Poems/Li Bai/a.md", basename := "a", parentPath := "Poems/Li Bai" },
         { path := "Poems/b.md", basename := "b", parentPath := "Poems" }]
        { path := "Poems", name := "Poems", children := [{ path := "Poems/Li Bai", name := "Li Bai" }] }).countP
      (fun m => m.path == MDFile.path { path := "Poems/Li Bai/a.md", basename := "a", parentPath := "Poems/Li Bai" }) =
      if MDFile.parentPath { path := "Poems/Li Bai/a.md", basename := "a", parentPath := "Poems/Li Bai" } =
          TopFolder.path { path := "Poems", name := "Poems", children := [{ path := "Poems/Li Bai", name := "Li Bai" }] } ∧
        jsToLower (MDFile.basename { path := "Poems/Li Bai/a.md", basename := "a", parentPath := "Poems/Li Bai" }) =
          jsToLower (TopFolder.name { path := "Poems", name := "Poems", children := [{ path := "Poems/Li Bai", name := "Li Bai" }] })
      then 0 else 1 :=
  C2_amended_partition (fun _ _ => true)
    [{ path := "Poems/Li Bai/a.md", basename := "a", parentPath := "Poems/Li Bai" },
     { path := "Poems/b.md", basename := "b", parentPath := "Poems" }]
    { path := "Poems", name := "Poems", children := [{ path := "Poems/Li Bai", name := "Li Bai" }] }
    (by decide) (by decide) (by decide) (by decide) (by decide) (by decide)
    { path := "Poems/Li Bai/a.md", basename := "a", parentPath := "Poems/Li Bai" }
    (by decide)

end MinimalistHomepage
